import Mathlib

/-!
# Verification of the `legible` icon scripts

Shallow embedding of the Python scripts in this repository:

* `assets/menubar-icons/png_to_go.py` — `png_to_go_bytes` and its batch driver,
* `scripts/generate_menubar_icons.py` — `create_icon` and `bytes_to_go_array`,
* `assets/menubar-icons/generate_icons.py` — `create_circle_icon`, `create_document_icon`
  and the `__main__` entry point,
* `scripts/generate_app_icon.py` — `create_app_icon` and `generate_iconset`.

Bytes are embedded as `Nat` (with side conditions `< 256` where the Python
`bytes` type guarantees it), Python strings as `List Char` wrapped into `String`
at the end, and the PIL drawing layer as a canvas carrying the trace of drawing
calls together with a geometric pixel semantics.
-/

namespace Legible

/-! ## The byte-array exporter

Both exporters format a byte `b` as the Python f-string `f'0x{b:02X}'`:
`0x` followed by two upper-case hex digits (bytes are `< 256`, so `%02X`
produces exactly the digits of `b / 16` and `b % 16`). -/

/-- The upper-case hexadecimal digit character for a value `v < 16`
(as produced by Python's `%X` formatting). -/
def hexDigitChar (v : Nat) : Char :=
  ['0', '1', '2', '3', '4', '5', '6', '7', '8', '9',
   'A', 'B', 'C', 'D', 'E', 'F'].getD v '0'

/-- The four characters of `f'0x{b:02X}'` for a byte `b < 256`. -/
def hexLitChars (b : Nat) : List Char :=
  ['0', 'x', hexDigitChar (b / 16), hexDigitChar (b % 16)]

/-- Python `sep.join(pieces)` at the character-list level. -/
def joinSep (sep : List Char) : List (List Char) → List Char
  | [] => []
  | [s] => s
  | s :: rest => s ++ sep ++ joinSep sep rest

/-- The successive slices `data[i:i+12]` for `i in range(0, len(data), 12)`:
chunks of 12 bytes, the last one possibly shorter (and never empty). -/
def chunks12 : List Nat → List (List Nat)
  | [] => []
  | b1 :: b2 :: b3 :: b4 :: b5 :: b6 :: b7 :: b8 :: b9 :: b10 :: b11 :: b12 :: rest =>
      [b1, b2, b3, b4, b5, b6, b7, b8, b9, b10, b11, b12] :: chunks12 rest
  | l => [l]

/-- One output line of `png_to_go_bytes`:
`f'\t\t{hex_values},'` where `hex_values = ', '.join(f'0x{b:02X}' for b in chunk)`.
Note the trailing comma on every line, the last one included. -/
def pngLineChars (chunk : List Nat) : List Char :=
  ['\t', '\t'] ++ joinSep [',', ' '] (chunk.map hexLitChars) ++ [',']

/-- The `lines` list built by `png_to_go_bytes` (`png_to_go.py`, lines 16-22):
one line per 12-byte slice of the input. -/
def png_to_go_lines (data : List Nat) : List (List Char) :=
  (chunks12 data).map pngLineChars

/-- `png_to_go_bytes` (`png_to_go.py`, lines 9-23), applied to the bytes read
from the file: `'\n'.join(lines)`. -/
def png_to_go_bytes (data : List Nat) : String :=
  String.mk (joinSep ['\n'] (png_to_go_lines data))

/-- Python `str` whitespace, as recognised by `str.strip()` / `str.rstrip()`
(ASCII part; no other characters occur in the formatted output). -/
def isPySpace (c : Char) : Bool :=
  c == ' ' || c == '\t' || c == '\n' || c == '\r' || c == '\x0b' || c == '\x0c'

/-- A character of the strip set `', '` of `line.rstrip(', ')`. -/
def isCommaSpace (c : Char) : Bool :=
  c == ',' || c == ' '

/-- Python `line.rstrip()`: remove trailing whitespace. -/
def rstripWS (l : List Char) : List Char :=
  (l.reverse.dropWhile isPySpace).reverse

/-- Python `line.rstrip(', ')`: remove trailing commas and spaces. -/
def rstripCS (l : List Char) : List Char :=
  (l.reverse.dropWhile isCommaSpace).reverse

/-- Python `line.strip()`: remove leading and trailing whitespace
(used only for its truthiness in `if line.strip():`). -/
def stripWS (l : List Char) : List Char :=
  rstripWS (l.dropWhile isPySpace)

/-- The loop of `bytes_to_go_array` (`generate_menubar_icons.py`, lines 73-82):
`line` accumulates `f'0x{byte:02X}, '` per byte; after every 12th byte the
right-stripped line is appended to `lines` and `line` is reset to `"\t\t"`;
after the loop a non-blank remainder is appended with `line.rstrip(', ')`. -/
def bytesLoop : List Nat → Nat → List Char → List (List Char) → List (List Char)
  | [], _, line, lines =>
      if stripWS line ≠ [] then lines ++ [rstripCS line] else lines
  | b :: rest, i, line, lines =>
      let line2 := line ++ hexLitChars b ++ [',', ' ']
      if (i + 1) % 12 = 0 then
        bytesLoop rest (i + 1) ['\t', '\t'] (lines ++ [rstripWS line2])
      else
        bytesLoop rest (i + 1) line2 lines

/-- The `lines` list built by `bytes_to_go_array`. -/
def bytes_to_go_lines (data : List Nat) : List (List Char) :=
  bytesLoop data 0 ['\t', '\t'] []

/-- `bytes_to_go_array` (`generate_menubar_icons.py`, lines 71-84):
`'\n'.join(lines)`. -/
def bytes_to_go_array (data : List Nat) : String :=
  String.mk (joinSep ['\n'] (bytes_to_go_lines data))

/-- A final partial line as emitted by `bytes_to_go_array`: like a
`png_to_go_bytes` line but with the dangling `', '` stripped. -/
def plChars (chunk : List Nat) : List Char :=
  ['\t', '\t'] ++ joinSep [',', ' '] (chunk.map hexLitChars)

/-- The line `bytes_to_go_array` emits for a chunk: full chunks get the
comma-terminated line, a final partial chunk the stripped one. -/
def refLine (chunk : List Nat) : List Char :=
  if chunk.length = 12 then pngLineChars chunk else plChars chunk

/-! ### Recovering the bytes from the emitted text

`parseHex` scans a character list left to right and reads every maximal
`0x` + two-hex-digit literal, in order — the "parsing the hexadecimal byte
literals out of the emitted lines" of the round-trip property. -/

/-- Is `c` a hexadecimal digit? -/
def isHexDigitB (c : Char) : Bool :=
  c.isDigit || ('A' ≤ c && c ≤ 'F') || ('a' ≤ c && c ≤ 'f')

/-- Numeric value of a hexadecimal digit character. -/
def hexVal (c : Char) : Nat :=
  if c.isDigit then c.toNat - 48
  else if 'A' ≤ c && c ≤ 'F' then c.toNat - 55
  else if 'a' ≤ c && c ≤ 'f' then c.toNat - 87
  else 0

/-- Extract the values of the `0xHH` literals occurring in a character list,
in order. -/
def parseHex : List Char → List Nat
  | c0 :: c1 :: c2 :: c3 :: rest =>
    if c0 == '0' && c1 == 'x' && isHexDigitB c2 && isHexDigitB c3 then
      (16 * hexVal c2 + hexVal c3) :: parseHex rest
    else
      parseHex (c1 :: c2 :: c3 :: rest)
  | _ :: rest => parseHex rest
  | [] => []

/-- The text appended to `line` for one byte: `f'0x{byte:02X}, '`. -/
def litComma (b : Nat) : List Char := hexLitChars b ++ [',', ' ']


/-! ## The PIL drawing layer

The imaging library is modelled geometrically: an image is a canvas of fixed
dimensions carrying the ordered trace of drawing calls, and a pixel semantics
maps each call to the region it paints.  `ImageDraw` on an RGBA image writes
fill colors directly (no blending), so painting replaces the pixel value. -/

/-- An RGBA color: four 8-bit channels `(r, g, b, a)`. -/
abbrev RGBA := Nat × Nat × Nat × Nat

/-- One PIL `ImageDraw` call with its arguments.  Coordinates are rationals:
all coordinates in the sources are integers except the app icon's wavy stroke
points, which involve a float division (modelled exactly in `ℚ`). -/
inductive DrawOp : Type
  | ellipse (x0 y0 x1 y1 : ℚ) (fill : Option RGBA) (outline : Option RGBA) (width : ℚ)
  | rectangle (x0 y0 x1 y1 : ℚ) (fill : Option RGBA) (outline : Option RGBA) (width : ℚ)
  | roundedRectangle (x0 y0 x1 y1 radius : ℚ) (fill : Option RGBA) (outline : Option RGBA)
      (width : ℚ)
  | line (points : List (ℚ × ℚ)) (fill : RGBA) (width : ℚ)
  | polygon (points : List (ℚ × ℚ)) (fill : RGBA)
  deriving DecidableEq

/-- The canvas: dimensions and background fixed by `Image.new`, plus the trace
of drawing calls made on it, in order. -/
structure Canvas : Type where
  width : Nat
  height : Nat
  background : RGBA
  ops : List DrawOp
  deriving DecidableEq

/-- `Image.new('RGBA', (w, h), bg)`. -/
def imageNew (w h : Nat) (bg : RGBA) : Canvas :=
  { width := w, height := h, background := bg, ops := [] }

/-- Record a drawing call (PIL mutates the image in place; the embedding
threads the canvas through). -/
def drawOp (cv : Canvas) (op : DrawOp) : Canvas :=
  { cv with ops := cv.ops ++ [op] }

/-- Squaring, kept as an explicit product for cheap kernel evaluation. -/
def sq (a : ℚ) : ℚ := a * a

/-- Modelled from PIL's rasterizer: a point lies in the ellipse inscribed in
the inclusive bounding box `[x0, y0, x1, y1]` iff
`((2x-(x0+x1))/(x1-x0))² + ((2y-(y0+y1))/(y1-y0))² ≤ 1`, written
cross-multiplied. -/
def inEllipse (x0 y0 x1 y1 x y : ℚ) : Bool :=
  decide (sq (2 * x - (x0 + x1)) * sq (y1 - y0) + sq (2 * y - (y0 + y1)) * sq (x1 - x0)
    ≤ sq (x1 - x0) * sq (y1 - y0))

/-- A point of the (inclusive) axis-aligned rectangle. -/
def inRect (x0 y0 x1 y1 x y : ℚ) : Bool :=
  decide (x0 ≤ x ∧ x ≤ x1 ∧ y0 ≤ y ∧ y ≤ y1)

/-- A point of the rounded rectangle: the two core rectangles or one of the
four corner discs of radius `r`. -/
def inRoundedRect (x0 y0 x1 y1 r x y : ℚ) : Bool :=
  inRect (x0 + r) y0 (x1 - r) y1 x y || inRect x0 (y0 + r) x1 (y1 - r) x y ||
  decide (sq (x - (x0 + r)) + sq (y - (y0 + r)) ≤ sq r) ||
  decide (sq (x - (x1 - r)) + sq (y - (y0 + r)) ≤ sq r) ||
  decide (sq (x - (x0 + r)) + sq (y - (y1 - r)) ≤ sq r) ||
  decide (sq (x - (x1 - r)) + sq (y - (y1 - r)) ≤ sq r)

/-- Distance from `p` to the segment `a`–`b` is at most `d` (squared clamped
projection, exact in `ℚ`). -/
def segDistLe (a b p : ℚ × ℚ) (d : ℚ) : Bool :=
  let ux := b.1 - a.1
  let uy := b.2 - a.2
  let vx := p.1 - a.1
  let vy := p.2 - a.2
  let len2 := sq ux + sq uy
  if len2 = 0 then decide (sq vx + sq vy ≤ sq d)
  else
    let t := max 0 (min 1 ((vx * ux + vy * uy) / len2))
    decide (sq (vx - t * ux) + sq (vy - t * uy) ≤ sq d)

/-- A point within distance `w/2` of some segment of the polyline. -/
def onPolyline : List (ℚ × ℚ) → ℚ → ℚ → ℚ → Bool
  | a :: b :: rest, w, x, y => segDistLe a b (x, y) (w / 2) || onPolyline (b :: rest) w x y
  | _, _, _, _ => false

/-- Point-in-triangle by signed areas (all on one side of the three edges).
The only `polygon` call in the sources is the three-point fold corner of
`create_document_icon`; other point counts paint nothing. -/
def inPolygon (pts : List (ℚ × ℚ)) (x y : ℚ) : Bool :=
  match pts with
  | [p1, p2, p3] =>
      let s1 := (p2.1 - p1.1) * (y - p1.2) - (p2.2 - p1.2) * (x - p1.1)
      let s2 := (p3.1 - p2.1) * (y - p2.2) - (p3.2 - p2.2) * (x - p2.1)
      let s3 := (p1.1 - p3.1) * (y - p3.2) - (p1.2 - p3.2) * (x - p3.1)
      (decide (0 ≤ s1) && decide (0 ≤ s2) && decide (0 ≤ s3)) ||
      (decide (s1 ≤ 0) && decide (s2 ≤ 0) && decide (s3 ≤ 0))
  | _ => false

/-- The effect of one drawing call on the pixel at point `(x, y)`: fill is
painted first, then the outline band (region minus the `width`-inset region)
on top, as PIL does. -/
def paintOp (op : DrawOp) (x y : ℚ) (old : RGBA) : RGBA :=
  match op with
  | .ellipse x0 y0 x1 y1 fill outline w =>
      let afterFill :=
        match fill with
        | some c => if inEllipse x0 y0 x1 y1 x y then c else old
        | none => old
      match outline with
      | some c =>
          if inEllipse x0 y0 x1 y1 x y && !inEllipse (x0 + w) (y0 + w) (x1 - w) (y1 - w) x y
          then c else afterFill
      | none => afterFill
  | .rectangle x0 y0 x1 y1 fill outline w =>
      let afterFill :=
        match fill with
        | some c => if inRect x0 y0 x1 y1 x y then c else old
        | none => old
      match outline with
      | some c =>
          if inRect x0 y0 x1 y1 x y && !inRect (x0 + w) (y0 + w) (x1 - w) (y1 - w) x y
          then c else afterFill
      | none => afterFill
  | .roundedRectangle x0 y0 x1 y1 r fill outline w =>
      let afterFill :=
        match fill with
        | some c => if inRoundedRect x0 y0 x1 y1 r x y then c else old
        | none => old
      match outline with
      | some c =>
          if inRoundedRect x0 y0 x1 y1 r x y
              && !inRoundedRect (x0 + w) (y0 + w) (x1 - w) (y1 - w) (r - w) x y
          then c else afterFill
      | none => afterFill
  | .line pts c w => if onPolyline pts w x y then c else old
  | .polygon pts c => if inPolygon pts x y then c else old

/-- The color of pixel `(x, y)` after replaying the trace over the
background. -/
def render (cv : Canvas) (x y : Nat) : RGBA :=
  cv.ops.foldl (fun acc op => paintOp op (x : ℚ) (y : ℚ) acc) cv.background

/-- Modelled from the behaviour of `img.save(..., 'PNG')` / `io.BytesIO`:
PIL's PNG encoder is a deterministic function of the pixel data; the embedding
serializes the dimensions and the raw RGBA grid row-major (the compression
layer, itself a function of these bytes, is omitted). -/
def pngEncode (cv : Canvas) : List Nat :=
  cv.width :: cv.height ::
    (List.range cv.height).flatMap fun y =>
      (List.range cv.width).flatMap fun x =>
        [(render cv x y).1, (render cv x y).2.1, (render cv x y).2.2.1, (render cv x y).2.2.2]

/-! ## The icon rasterizers -/

/-- `create_circle_icon` (`generate_icons.py`, lines 16-42): a transparent
`size`×`size` canvas with one circle of the given RGB color (made fully
opaque), inscribed with padding 3.  The `output_path` parameter only names the
saved file and does not affect the image. -/
def create_circle_icon (color : Nat × Nat × Nat) (size : Nat) : Canvas :=
  let img := imageNew size size (0, 0, 0, 0)
  let padding : ℚ := 3
  let circle_size : ℚ := (size : ℚ) - padding * 2
  drawOp img (.ellipse padding padding (padding + circle_size) (padding + circle_size)
    (some (color.1, color.2.1, color.2.2, 255)) none 1)

/-- `create_document_icon` (`generate_icons.py`, lines 44-95): document body
rectangle, fold-corner triangle, colored status dot. -/
def create_document_icon (color : Nat × Nat × Nat) (size : Nat) : Canvas :=
  let img := imageNew size size (0, 0, 0, 0)
  let doc_color : RGBA := (160, 160, 160, 255)
  let doc_padding : ℚ := 4
  let doc_width : ℚ := (size : ℚ) - doc_padding * 2
  let doc_height : ℚ := (size : ℚ) - doc_padding * 2
  let img := drawOp img (.rectangle doc_padding doc_padding (doc_padding + doc_width)
    (doc_padding + doc_height) (some doc_color) none 1)
  let fold_size : ℚ := 4
  let img := drawOp img (.polygon
    [((size : ℚ) - doc_padding - fold_size, doc_padding),
     ((size : ℚ) - doc_padding, doc_padding),
     ((size : ℚ) - doc_padding, doc_padding + fold_size)]
    (100, 100, 100, 255))
  let dot_size : ℚ := 6
  let dot_x : ℚ := (size : ℚ) - doc_padding - dot_size - 1
  let dot_y : ℚ := (size : ℚ) - doc_padding - dot_size - 1
  drawOp img (.ellipse dot_x dot_y (dot_x + dot_size) (dot_y + dot_size)
    (some (color.1, color.2.1, color.2.2, 255)) none 1)

/-- The drawing part of `create_icon` (`generate_menubar_icons.py`,
lines 11-63): tablet outline, pen stroke with tip, then the status dot with
its white halo and black outline.  `status_color` is passed as the full RGBA
tuple the driver supplies. -/
def create_icon_img (status_color : RGBA) : Canvas :=
  let img := imageNew 22 22 (0, 0, 0, 0)
  let icon_color : RGBA := (0, 0, 0, 255)
  let img := drawOp img (.roundedRectangle 2 4 15 18 2 none (some icon_color) 1)
  let img := drawOp img (.line [(6, 3), (17, 14)] icon_color 2)
  let img := drawOp img (.ellipse (17 - 1) (14 - 1) (17 + 1) (14 + 1) (some icon_color) none 1)
  let img := drawOp img (.ellipse (18 - 4) (5 - 4) (18 + 4) (5 + 4)
    (some (255, 255, 255, 180)) none 1)
  let img := drawOp img (.ellipse (18 - 3) (5 - 3) (18 + 3) (5 + 3) (some status_color) none 1)
  drawOp img (.ellipse (18 - 3) (5 - 3) (18 + 3) (5 + 3) none (some icon_color) 1)

/-- `create_icon` (`generate_menubar_icons.py`, lines 11-68): the PNG bytes of
the drawn 22×22 canvas (`img.save(byte_arr, format='PNG')`). -/
def create_icon (status_color : RGBA) : List Nat :=
  pngEncode (create_icon_img status_color)

/-! ### `create_app_icon`

The source computes every offset as `int(c * scale)` with
`scale = size / 512.0`.  For integer `c` and `size` these float computations
are exact (`size / 512.0` and `c * (size / 512.0)` are dyadic rationals
representable in double precision), so `int(c * scale)` is the floor division
`c * size / 512`.  The local variables of the Python function become the
top-level definitions below; the geometry is square-symmetric, so one
`lo`/`hi` pair serves both axes. -/

/-- `int(c * scale)` for `scale = size / 512.0`. -/
def intScale (c size : Nat) : Nat := c * size / 512

/-- `padding = int(40 * scale)`. -/
def app_padding (size : Nat) : Nat := intScale 40 size

/-- `tablet_rect[0] = tablet_rect[1] = padding`. -/
def app_tablet_lo (size : Nat) : Nat := app_padding size

/-- `tablet_rect[2] = tablet_rect[3] = size - padding`. -/
def app_tablet_hi (size : Nat) : Nat := size - app_padding size

/-- `screen_padding = int(20 * scale)`. -/
def app_screen_padding (size : Nat) : Nat := intScale 20 size

/-- `screen_rect[0] = screen_rect[1] = tablet_rect[0] + screen_padding`. -/
def app_screen_lo (size : Nat) : Nat := app_tablet_lo size + app_screen_padding size

/-- `screen_rect[2] = screen_rect[3] = tablet_rect[2] - screen_padding`. -/
def app_screen_hi (size : Nat) : Nat := app_tablet_hi size - app_screen_padding size

/-- `stroke_width = max(2, int(4 * scale))`. -/
def app_stroke_width (size : Nat) : Nat := max 2 (intScale 4 size)

/-- `y_start = screen_rect[1] + int(60 * scale)`. -/
def app_y_start (size : Nat) : Nat := app_screen_lo size + intScale 60 size

/-- `x_start = screen_rect[0] + int(40 * scale)`. -/
def app_x_start (size : Nat) : Nat := app_screen_lo size + intScale 40 size

/-- `x_end = screen_rect[2] - int(40 * scale)`. -/
def app_x_end (size : Nat) : Nat := app_screen_hi size - intScale 40 size

/-- The 21 points of one wavy handwriting stroke: for `j in range(segments+1)`
with `segments = 20`, `x = x_start + (x_end - x_start) * j / segments` (the
float division modelled exactly in `ℚ`) and
`y + int(8*scale) * (1 if (j // 3) % 2 == 0 else -1)`. -/
def wavePoints (x_start x_end y i8 : Nat) : List (ℚ × ℚ) :=
  (List.range 21).map fun j =>
    ((x_start : ℚ) + ((x_end : ℚ) - (x_start : ℚ)) * (j : ℚ) / 20,
      if (j / 3) % 2 = 0 then (y : ℚ) + (i8 : ℚ) else (y : ℚ) - (i8 : ℚ))

/-- The handwriting strokes (`generate_app_icon.py`, lines 77-87): for
`i in range(3)`, the stroke at `y = y_start + i * int(50*scale)` is drawn only
if `y + int(20*scale) < screen_rect[3]`. -/
def app_strokes (size : Nat) : List DrawOp :=
  (List.range 3).filterMap fun i =>
    let y := app_y_start size + i * intScale 50 size
    if y + intScale 20 size < app_screen_hi size then
      some (.line (wavePoints (app_x_start size) (app_x_end size) y (intScale 8 size))
        (100, 100, 100, 180) (app_stroke_width size))
    else none

/-- `pen_start_x = tablet_rect[2] - int(100 * scale)`. -/
def app_pen_start_x (size : Nat) : Nat := app_tablet_hi size - intScale 100 size

/-- `pen_start_y = tablet_rect[1] + int(50 * scale)`. -/
def app_pen_start_y (size : Nat) : Nat := app_tablet_lo size + intScale 50 size

/-- `pen_end_x = pen_start_x + int(140 * scale)`. -/
def app_pen_end_x (size : Nat) : Nat := app_pen_start_x size + intScale 140 size

/-- `pen_end_y = pen_start_y + int(140 * scale)`. -/
def app_pen_end_y (size : Nat) : Nat := app_pen_start_y size + intScale 140 size

/-- `shadow_offset = int(6 * scale)`. -/
def app_shadow_offset (size : Nat) : Nat := intScale 6 size

/-- `radius = int(40 * scale)`. -/
def app_radius (size : Nat) : Nat := intScale 40 size

/-- `create_app_icon` (`generate_app_icon.py`, lines 9-123): shadow, tablet
body, screen, up to three handwriting strokes, pen body, pen tip, brand
indicator — in source order.  The source also computes `pen_length`,
`grip_x`, `grip_y` and `grip_length`, which are never drawn. -/
def create_app_icon (size : Nat) : Canvas :=
  let img := imageNew size size (0, 0, 0, 0)
  let tablet_color : RGBA := (60, 60, 60, 255)
  let screen_color : RGBA := (240, 240, 240, 255)
  let pen_color : RGBA := (100, 100, 100, 255)
  let accent_color : RGBA := (52, 199, 89, 255)
  let pad := app_padding size
  let off := app_shadow_offset size
  let img := drawOp img (.roundedRectangle (pad + off) (pad + off)
    (app_tablet_hi size + off) (app_tablet_hi size + off) (app_radius size)
    (some (0, 0, 0, 60)) none 1)
  let img := drawOp img (.roundedRectangle (app_tablet_lo size) (app_tablet_lo size)
    (app_tablet_hi size) (app_tablet_hi size) (app_radius size) (some tablet_color) none 1)
  let img := drawOp img (.roundedRectangle (app_screen_lo size) (app_screen_lo size)
    (app_screen_hi size) (app_screen_hi size) (intScale 20 size) (some screen_color) none 1)
  let img := { img with ops := img.ops ++ app_strokes size }
  let img := drawOp img (.line
    [((app_pen_start_x size : ℚ), (app_pen_start_y size : ℚ)),
     ((app_pen_end_x size : ℚ), (app_pen_end_y size : ℚ))]
    pen_color (intScale 12 size))
  let tr := intScale 8 size
  let img := drawOp img (.ellipse ((app_pen_end_x size : ℚ) - tr) ((app_pen_end_y size : ℚ) - tr)
    ((app_pen_end_x size : ℚ) + tr) ((app_pen_end_y size : ℚ) + tr)
    (some (40, 40, 40, 255)) none 1)
  let ind := intScale 12 size
  let ix := app_tablet_lo size + intScale 30 size
  drawOp img (.ellipse ((ix : ℚ) - ind) ((ix : ℚ) - ind) ((ix : ℚ) + ind) ((ix : ℚ) + ind)
    (some accent_color) none 1)

/-! ### `generate_iconset` -/

/-- The sizes of `generate_iconset`. -/
def iconset_sizes : List Nat := [16, 32, 64, 128, 256, 512, 1024]

/-- `f"icon_{size}x{size}.png"`. -/
def icon_filename (s : Nat) : String :=
  "icon_" ++ toString s ++ "x" ++ toString s ++ ".png"

/-- `f"icon_{size}x{size}@2x.png"`. -/
def icon_filename_2x (s : Nat) : String :=
  "icon_" ++ toString s ++ "x" ++ toString s ++ "@2x.png"

/-- `generate_iconset` (`generate_app_icon.py`, lines 126-148): the (file
name, image) pairs written into the iconset directory, in order; the `@2x`
variant at `size * 2` is written for every size `≤ 512`. -/
def generate_iconset : List (String × Canvas) :=
  iconset_sizes.flatMap fun s =>
    (icon_filename s, create_app_icon s) ::
      (if s ≤ 512 then [(icon_filename_2x s, create_app_icon (s * 2))] else [])

/-- The constructor of a drawing call — the shape it draws, irrespective of
color and coordinates. -/
inductive OpKind : Type
  | ellipse
  | rectangle
  | roundedRectangle
  | line
  | polygon
  deriving DecidableEq

/-- The shape kind of a drawing call. -/
def opKind : DrawOp → OpKind
  | .ellipse .. => .ellipse
  | .rectangle .. => .rectangle
  | .roundedRectangle .. => .roundedRectangle
  | .line .. => .line
  | .polygon .. => .polygon

/-! ## Process models of the batch drivers -/

/-- The runtime environment a script run observes: whether PIL can be
imported, which file writes succeed, which input paths exist
(`os.path.exists`) and what bytes they hold. -/
structure Env : Type where
  pilAvailable : Bool
  saveOk : String → Bool
  pathExists : String → Bool
  fileBytes : String → List Nat

/-- The files written by `generate_icons.py`'s `main()` (lines 97-125), in
order: the three simple circle icons, then the three document-style icons. -/
def generate_icons_files : List String :=
  ["icon-green-22.png", "icon-yellow-22.png", "icon-red-22.png",
   "icon-green-doc-22.png", "icon-yellow-doc-22.png", "icon-red-doc-22.png"]

/-- Modelled from `img.save(output_path)`: a failing write raises `OSError`.
`main()` performs its saves in order with no handler around them, so the
first failure aborts the run; otherwise every file is written. -/
def runSaves (env : Env) : List String → Except String (List String)
  | [] => .ok []
  | f :: fs =>
      if env.saveOk f then
        match runSaves env fs with
        | .ok written => .ok (f :: written)
        | .error e => .error e
      else .error f

/-- The `__main__` guard of `generate_icons.py` (lines 127-134): only
`ImportError` is caught (printing the install hint and calling
`sys.exit(1)`); any other exception escaping `main()` — e.g. a failed
save — terminates the interpreter with exit status 1 as well, and a clean run
exits 0. -/
def generate_icons_exit (env : Env) : Nat :=
  if env.pilAvailable then
    match runSaves env generate_icons_files with
    | .ok _ => 0
    | .error _ => 1
  else 1

/-- The icon table of `png_to_go.py`'s `main()` (lines 26-30), in iteration
order. -/
def png_icons : List (String × String) :=
  [("green", "icon-green-22.png"), ("yellow", "icon-yellow-22.png"),
   ("red", "icon-red-22.png")]

/-- Python `str.capitalize()`: first character upper-cased, the rest
lower-cased. -/
def pyCapitalize (s : String) : String :=
  match s.toList with
  | [] => ""
  | c :: cs => String.mk (c.toUpper :: cs.map Char.toLower)

/-- The header lines `main()` prints before the loop (lines 32-34). -/
def png_to_go_header : List String :=
  ["// Generated icon data - DO NOT EDIT MANUALLY",
   "// Generated from assets/menubar-icons/*.png",
   ""]

/-- The stdout block `main()` prints for one icon whose input file exists
(lines 41-51), `data` being the input file's bytes. -/
def iconBlock (color : String) (data : List Nat) : List String :=
  ["// icon" ++ pyCapitalize color ++ " returns a " ++ color ++ " status icon.",
   "// 22x22 PNG with transparency, optimized for macOS menu bar.",
   "func icon" ++ pyCapitalize color ++ "() []byte \x7b",
   "\treturn []byte\x7b",
   png_to_go_bytes data,
   "\t\x7d",
   "\x7d",
   ""]

/-- `main()` of `png_to_go.py` (lines 25-51) as its pair of (stdout, stderr)
line streams: a missing input file is reported to stderr and the loop
continues with the next item. -/
def png_to_go_main (env : Env) : List String × List String :=
  png_icons.foldl
    (fun acc item =>
      if env.pathExists item.2 then
        (acc.1 ++ iconBlock item.1 (env.fileBytes item.2), acc.2)
      else
        (acc.1, acc.2 ++ ["Error: " ++ item.2 ++ " not found"]))
    (png_to_go_header, [])

/-- `png_to_go.py` raises nothing — its only fallible operation, reading an
input file, is guarded by the `os.path.exists` check — so the process always
exits 0. -/
def png_to_go_exit (_env : Env) : Nat := 0

/-- The environment of the C7 counterexample: PIL importable, saving
`icon-green-22.png` fails, everything else in order. -/
def envSaveFails : Env :=
  { pilAvailable := true
    saveOk := fun f => !(f == "icon-green-22.png")
    pathExists := fun _ => true
    fileBytes := fun _ => [] }

/-- The environment of the C7 witness: PIL is missing. -/
def envNoPil : Env :=
  { pilAvailable := false
    saveOk := fun _ => true
    pathExists := fun _ => true
    fileBytes := fun _ => [] }

/-! ## Lemmas and claim theorems -/

/-- The hex digit emitted for a value `v < 16` is a hex digit character and
parses back to `v`. -/
theorem hexDigit_facts : ∀ v < 16,
    isHexDigitB (hexDigitChar v) = true ∧ hexVal (hexDigitChar v) = v := by
  decide

/-- The formatted digits never lie in the strip set `', '`, whatever `v` is
(out-of-range indices hit the `getD` default `'0'`). -/
theorem hexDigitChar_not_comma_space (v : Nat) : isCommaSpace (hexDigitChar v) = false := by
  by_cases h : v < 16
  · revert h; revert v; decide
  · have : hexDigitChar v = '0' := by
      unfold hexDigitChar
      exact List.getD_eq_default _ _ (by simp; omega)
    rw [this]; decide

/-- The scanner ignores a leading character that cannot start a literal. -/
theorem parseHex_skip (c : Char) (h : (c == '0') = false) (l : List Char) :
    parseHex (c :: l) = parseHex l := by
  match l with
  | [] => simp [parseHex]
  | [a] => simp [parseHex]
  | [a, b] => simp [parseHex]
  | a :: b :: d :: t => simp [parseHex, h]

/-- The scanner ignores a `', '` separator. -/
theorem parseHex_comma_space (l : List Char) : parseHex (',' :: ' ' :: l) = parseHex l := by
  rw [parseHex_skip ',' (by decide), parseHex_skip ' ' (by decide)]

/-- The scanner reads the literal of a byte `b < 256` and yields `b`. -/
theorem parseHex_lit (b : Nat) (hb : b < 256) (rest : List Char) :
    parseHex (hexLitChars b ++ rest) = b :: parseHex rest := by
  have h1 := hexDigit_facts (b / 16) (by omega)
  have h2 := hexDigit_facts (b % 16) (Nat.mod_lt _ (by norm_num))
  simp [hexLitChars, parseHex, h1.1, h1.2, h2.1, h2.2]
  omega

/-- Parsing the comma-separated literals of a chunk recovers the chunk. -/
theorem parseHex_join (chunk : List Nat) (h : ∀ b ∈ chunk, b < 256) (rest : List Char) :
    parseHex (joinSep [',', ' '] (chunk.map hexLitChars) ++ rest) = chunk ++ parseHex rest := by
  induction chunk with
  | nil => simp [joinSep]
  | cons b cs ih =>
    cases cs with
    | nil => simp [joinSep, parseHex_lit b (h b (by simp))]
    | cons b2 cs2 =>
      have hj : joinSep [',', ' '] ((b :: b2 :: cs2).map hexLitChars)
          = hexLitChars b ++ [',', ' '] ++ joinSep [',', ' '] ((b2 :: cs2).map hexLitChars) := by
        simp [joinSep]
      rw [hj, List.append_assoc, List.append_assoc,
        parseHex_lit b (h b (by simp)) _]
      simp only [List.cons_append, List.nil_append]
      rw [parseHex_comma_space, ih (fun x hx => h x (by simp [hx]))]
      simp

/-- Parsing a stripped (partial) line recovers its chunk. -/
theorem parseHex_plChars (chunk : List Nat) (h : ∀ b ∈ chunk, b < 256) (rest : List Char) :
    parseHex (plChars chunk ++ rest) = chunk ++ parseHex rest := by
  have : plChars chunk ++ rest
      = '\t' :: '\t' :: (joinSep [',', ' '] (chunk.map hexLitChars) ++ rest) := by
    simp [plChars]
  rw [this, parseHex_skip '\t' (by decide), parseHex_skip '\t' (by decide),
    parseHex_join chunk h]

/-- A `png_to_go_bytes` line is the stripped line plus the trailing comma. -/
theorem pngLineChars_eq (chunk : List Nat) : pngLineChars chunk = plChars chunk ++ [','] := by
  simp [pngLineChars, plChars]

/-- Parsing a comma-terminated line recovers its chunk. -/
theorem parseHex_pngLine (chunk : List Nat) (h : ∀ b ∈ chunk, b < 256) (rest : List Char) :
    parseHex (pngLineChars chunk ++ rest) = chunk ++ parseHex rest := by
  rw [pngLineChars_eq, List.append_assoc]
  have : ([','] : List Char) ++ rest = ',' :: rest := by simp
  rw [this, parseHex_plChars chunk h, parseHex_skip ',' (by decide)]

/-- Parsing the newline-joined lines of per-chunk renderings recovers the
concatenation of the chunks, for any line renderer `g` that the scanner
inverts chunkwise. -/
theorem parseHex_joinLines (g : List Nat → List Char) (chunks : List (List Nat))
    (hg : ∀ c ∈ chunks, ∀ rest, parseHex (g c ++ rest) = c ++ parseHex rest) :
    parseHex (joinSep ['\n'] (chunks.map g)) = chunks.flatten := by
  induction chunks with
  | nil => simp [joinSep, parseHex]
  | cons c cs ih =>
    cases cs with
    | nil =>
      have := hg c (by simp) []
      simpa [joinSep, parseHex] using this
    | cons c2 cs2 =>
      have hj : joinSep ['\n'] ((c :: c2 :: cs2).map g)
          = g c ++ ['\n'] ++ joinSep ['\n'] ((c2 :: cs2).map g) := by
        simp [joinSep]
      rw [hj, List.append_assoc]
      have h2 : (['\n'] : List Char) ++ joinSep ['\n'] ((c2 :: cs2).map g)
          = '\n' :: joinSep ['\n'] ((c2 :: cs2).map g) := by simp
      rw [h2, hg c (by simp), parseHex_skip '\n' (by decide),
        ih (fun x hx => hg x (by simp [hx]))]
      simp

/-! ### Chunk structure lemmas -/

/-- The 12-byte slices concatenate back to the input. -/
theorem chunks12_flatten : ∀ data : List Nat, (chunks12 data).flatten = data := by
  intro data
  induction data using chunks12.induct <;> simp_all [chunks12]

/-- A nonempty input yields at least one slice. -/
theorem chunks12_ne_nil : ∀ data : List Nat, data ≠ [] → chunks12 data ≠ [] := by
  intro data
  induction data using chunks12.induct <;> simp_all [chunks12]

/-- A list that matches no 12-deep cons pattern has at most 11 elements. -/
theorem length_le_of_no12 (l : List Nat)
    (h : ∀ (b1 b2 b3 b4 b5 b6 b7 b8 b9 b10 b11 b12 : Nat) (rest : List Nat),
      ¬l = b1 :: b2 :: b3 :: b4 :: b5 :: b6 :: b7 :: b8 :: b9 :: b10 :: b11 :: b12 :: rest) :
    l.length ≤ 11 := by
  rcases l with _ | ⟨b1, _ | ⟨b2, _ | ⟨b3, _ | ⟨b4, _ | ⟨b5, _ | ⟨b6, _ | ⟨b7, _ | ⟨b8, _ |
    ⟨b9, _ | ⟨b10, _ | ⟨b11, _ | ⟨b12, rest⟩⟩⟩⟩⟩⟩⟩⟩⟩⟩⟩⟩ <;>
    first
      | exact absurd rfl (h _ _ _ _ _ _ _ _ _ _ _ _ _)
      | simp

/-- All slices are nonempty and have at most 12 bytes. -/
theorem chunks12_mem_le : ∀ data : List Nat, ∀ c ∈ chunks12 data, c ≠ [] ∧ c.length ≤ 12 := by
  intro data
  induction data using chunks12.induct with
  | case1 => simp [chunks12]
  | case2 b1 b2 b3 b4 b5 b6 b7 b8 b9 b10 b11 b12 rest ih =>
      intro c hc
      rw [chunks12] at hc
      rcases List.mem_cons.mp hc with h | h
      · subst h; simp
      · exact ih c h
  | case3 l hnil hno =>
      intro c hc
      have hlen := length_le_of_no12 l hno
      rw [chunks12] at hc
      · simp only [List.mem_singleton] at hc
        subst hc
        exact ⟨hnil, by omega⟩
      · exact hnil
      · exact hno

/-- Every slice except the last carries exactly 12 bytes. -/
theorem chunks12_dropLast_full :
    ∀ data : List Nat, ∀ c ∈ (chunks12 data).dropLast, c.length = 12 := by
  intro data
  induction data using chunks12.induct with
  | case1 => simp [chunks12]
  | case2 b1 b2 b3 b4 b5 b6 b7 b8 b9 b10 b11 b12 rest ih =>
      intro c hc
      rw [chunks12] at hc
      cases hrest : chunks12 rest with
      | nil => rw [hrest] at hc; simp at hc
      | cons y ys =>
          rw [hrest, List.dropLast_cons₂] at hc
          rcases List.mem_cons.mp hc with h | h
          · subst h; simp
          · exact ih c (by rw [hrest]; exact h)
  | case3 l hnil hno =>
      intro c hc
      rw [chunks12] at hc
      · simp at hc
      · exact hnil
      · exact hno

/-- The number of slices is `⌈length / 12⌉`. -/
theorem chunks12_length : ∀ data : List Nat,
    (chunks12 data).length = (data.length + 11) / 12 := by
  intro data
  induction data using chunks12.induct with
  | case1 => simp [chunks12]
  | case2 b1 b2 b3 b4 b5 b6 b7 b8 b9 b10 b11 b12 rest ih =>
      rw [chunks12]
      simp only [List.length_cons, List.length]
      omega
  | case3 l hnil hno =>
      have hlen := length_le_of_no12 l hno
      have hpos : 0 < l.length := List.length_pos.mpr hnil
      rw [chunks12]
      · simp only [List.length_singleton]
        omega
      · exact hnil
      · exact hno

/-- When the input length is a multiple of 12, every slice is full. -/
theorem chunks12_full_of_mod : ∀ data : List Nat, data.length % 12 = 0 →
    ∀ c ∈ chunks12 data, c.length = 12 := by
  intro data
  induction data using chunks12.induct with
  | case1 => simp [chunks12]
  | case2 b1 b2 b3 b4 b5 b6 b7 b8 b9 b10 b11 b12 rest ih =>
      intro hmod c hc
      rw [chunks12] at hc
      rcases List.mem_cons.mp hc with h | h
      · subst h; simp
      · exact ih (by simp at hmod ⊢; omega) c h
  | case3 l hnil hno =>
      intro hmod c hc
      have hlen := length_le_of_no12 l hno
      have hpos : 0 < l.length := List.length_pos.mpr hnil
      omega

/-- When the input length is not a multiple of 12 the last slice is partial:
its length is `length % 12`. -/
theorem chunks12_getLast_mod : ∀ data : List Nat, data.length % 12 ≠ 0 →
    ∀ c, (chunks12 data).getLast? = some c → c.length = data.length % 12 := by
  intro data
  induction data using chunks12.induct with
  | case1 => simp [chunks12]
  | case2 b1 b2 b3 b4 b5 b6 b7 b8 b9 b10 b11 b12 rest ih =>
      intro hmod c hc
      rw [chunks12] at hc
      cases hrest : chunks12 rest with
      | nil =>
          have : rest = [] := by
            by_contra hne
            exact chunks12_ne_nil rest hne hrest
          subst this
          simp [chunks12] at hrest hc ⊢
          simp at hmod
      | cons y ys =>
          rw [hrest, List.getLast?_cons_cons] at hc
          have := ih (by simp at hmod ⊢; omega) c (by rw [hrest]; exact hc)
          simp only [List.length_cons] at *
          omega
  | case3 l hnil hno =>
      intro hmod c hc
      have hlen := length_le_of_no12 l hno
      have hpos : 0 < l.length := List.length_pos.mpr hnil
      rw [chunks12] at hc
      · simp only [List.getLast?_singleton, Option.some_inj] at hc
        subst hc
        omega
      · exact hnil
      · exact hno

/-! ### The `bytes_to_go_array` loop, chunk by chunk -/

/-- `rstrip()` of a line ending in `', '` drops exactly the final space. -/
theorem rstripWS_append_comma_space (xs : List Char) :
    rstripWS (xs ++ [',', ' ']) = xs ++ [','] := by
  simp [rstripWS, List.dropWhile, isPySpace]

/-- `rstrip(', ')` of a line ending in `d, ', ', ' '` with `d` outside the strip
set drops exactly the final `', '`. -/
theorem rstripCS_append (xs : List Char) (d : Char) (h : isCommaSpace d = false) :
    rstripCS ((xs ++ [d]) ++ [',', ' ']) = xs ++ [d] := by
  have h' : (d == ',' || d == ' ') = false := by simpa [isCommaSpace] using h
  simp [rstripCS, List.dropWhile, isCommaSpace, h']

/-- A line that is indentation followed by a literal is not blank. -/
theorem stripWS_tt_lit (rest : List Char) :
    stripWS ('\t' :: '\t' :: '0' :: rest) ≠ [] := by
  intro hcontra
  have h0 : stripWS ('\t' :: '\t' :: '0' :: rest) = rstripWS ('0' :: rest) := by
    simp [stripWS, List.dropWhile, isPySpace]
  rw [h0] at hcontra
  unfold rstripWS at hcontra
  rw [List.reverse_eq_nil_iff, List.dropWhile_eq_nil_iff] at hcontra
  have := hcontra '0' (by simp)
  simp [isPySpace] at this

/-- The blank reset line strips to nothing. -/
theorem stripWS_blank : stripWS ['\t', '\t'] = [] := by decide

/-- `joinSep` on a list of two or more pieces. -/
theorem joinSep_cons_cons (sep s t : List Char) (rest : List (List Char)) :
    joinSep sep (s :: t :: rest) = s ++ sep ++ joinSep sep (t :: rest) := rfl

/-- Flattening the per-byte pieces equals the `', '`-joined literals plus a
dangling `', '`. -/
theorem flat_litComma : ∀ bs : List Nat, bs ≠ [] →
    (bs.map litComma).flatten = joinSep [',', ' '] (bs.map hexLitChars) ++ [',', ' '] := by
  intro bs
  induction bs with
  | nil => simp
  | cons b cs ih =>
    intro _
    cases cs with
    | nil => simp [joinSep, litComma]
    | cons b2 cs2 =>
      have h2 := ih (by simp)
      have hflat : (List.map litComma (b :: b2 :: cs2)).flatten
          = litComma b ++ (List.map litComma (b2 :: cs2)).flatten := by simp
      have hj : joinSep [',', ' '] (hexLitChars b :: hexLitChars b2 :: cs2.map hexLitChars)
          = hexLitChars b ++ [',', ' '] ++ joinSep [',', ' '] (hexLitChars b2 :: cs2.map hexLitChars) :=
        joinSep_cons_cons _ _ _ _
      rw [hflat, h2]
      simp only [List.map_cons]
      rw [hj]
      simp [litComma, List.append_assoc]

/-- `joinSep` over a list split at its last element. -/
theorem joinSep_append_last (sep : List Char) (m : List Char) :
    ∀ ms : List (List Char), ms ≠ [] →
    joinSep sep (ms ++ [m]) = joinSep sep ms ++ sep ++ m := by
  intro ms
  induction ms with
  | nil => simp
  | cons m0 ms0 ih =>
    intro _
    cases ms0 with
    | nil => simp [joinSep]
    | cons m1 ms1 =>
      have h2 := ih (by simp)
      simp only [List.cons_append] at h2 ⊢
      rw [joinSep_cons_cons, h2, joinSep_cons_cons]
      simp [List.append_assoc]

/-- The joined literals of a nonempty chunk end in a hex digit character. -/
theorem joined_ends_in_digit : ∀ l : List Nat, l ≠ [] →
    ∃ xs v, ['\t', '\t'] ++ joinSep [',', ' '] (l.map hexLitChars) = xs ++ [hexDigitChar v] := by
  intro l hl
  rcases List.eq_nil_or_concat l with rfl | ⟨ys, b, rfl⟩
  · exact absurd rfl hl
  · rw [List.concat_eq_append]
    cases ys with
    | nil =>
      refine ⟨['\t', '\t', '0', 'x', hexDigitChar (b / 16)], b % 16, ?_⟩
      simp [joinSep, hexLitChars]
    | cons y ys0 =>
      rw [List.map_append]
      rw [show List.map hexLitChars [b] = [hexLitChars b] from rfl]
      rw [joinSep_append_last _ _ ((y :: ys0).map hexLitChars) (by simp)]
      refine ⟨['\t', '\t'] ++ (joinSep [',', ' '] ((y :: ys0).map hexLitChars) ++ [',', ' ']
        ++ ['0', 'x', hexDigitChar (b / 16)]), b % 16, ?_⟩
      simp [hexLitChars, List.append_assoc]

/-- One loop iteration strictly inside a chunk. -/
theorem bytesLoop_step_inner (b : Nat) (rest : List Nat) (i : Nat) (line : List Char)
    (acc : List (List Char)) (h : (i + 1) % 12 ≠ 0) :
    bytesLoop (b :: rest) i line acc = bytesLoop rest (i + 1) (line ++ litComma b) acc := by
  simp only [bytesLoop, litComma, if_neg h, List.append_assoc]

/-- One loop iteration at a chunk boundary. -/
theorem bytesLoop_step_boundary (b : Nat) (rest : List Nat) (i : Nat) (line : List Char)
    (acc : List (List Char)) (h : (i + 1) % 12 = 0) :
    bytesLoop (b :: rest) i line acc
      = bytesLoop rest (i + 1) ['\t', '\t'] (acc ++ [rstripWS (line ++ litComma b)]) := by
  simp only [bytesLoop, litComma, if_pos h, List.append_assoc]

/-- Running the loop through bytes that stay strictly inside the current chunk
just accumulates their formatted pieces onto `line`. -/
theorem bytesLoop_within : ∀ (bs : List Nat) (tail : List Nat) (i : Nat) (line : List Char)
    (acc : List (List Char)), i % 12 + bs.length ≤ 11 →
    bytesLoop (bs ++ tail) i line acc
      = bytesLoop tail (i + bs.length) (line ++ (bs.map litComma).flatten) acc := by
  intro bs
  induction bs with
  | nil => intro tail i line acc _; simp
  | cons b bs0 ih =>
    intro tail i line acc hle
    simp only [List.length_cons] at hle
    rw [List.cons_append, bytesLoop_step_inner b _ i line acc (by omega),
      ih tail (i + 1) (line ++ litComma b) acc (by omega)]
    have harith : i + 1 + bs0.length = i + (bs0.length + 1) := by omega
    rw [harith]
    simp [List.append_assoc]

/-- Processing one full 12-byte chunk from a chunk boundary emits its
comma-terminated line and resets the accumulator line. -/
theorem bytesLoop_chunk_full (c : List Nat) (tail : List Nat) (k : Nat)
    (acc : List (List Char)) (hc : c.length = 12) :
    bytesLoop (c ++ tail) (12 * k) ['\t', '\t'] acc
      = bytesLoop tail (12 * (k + 1)) ['\t', '\t'] (acc ++ [pngLineChars c]) := by
  rcases List.eq_nil_or_concat c with rfl | ⟨cs, b, rfl⟩
  · simp at hc
  · rw [List.concat_eq_append] at hc ⊢
    have hcs : cs.length = 11 := by simp at hc; omega
    rw [List.append_assoc,
      bytesLoop_within cs ([b] ++ tail) (12 * k) _ _ (by simp [hcs, Nat.mul_mod_right]), hcs,
      show ([b] ++ tail) = b :: tail from rfl,
      bytesLoop_step_boundary b tail (12 * k + 11) _ acc (by omega)]
    have h12 : 12 * k + 11 + 1 = 12 * (k + 1) := by omega
    rw [h12]
    have hline : rstripWS ((['\t', '\t'] ++ (cs.map litComma).flatten) ++ litComma b)
        = pngLineChars (cs ++ [b]) := by
      have hfl := flat_litComma (cs ++ [b]) (by simp)
      have hgrp : (['\t', '\t'] ++ (cs.map litComma).flatten) ++ litComma b
          = ['\t', '\t'] ++ ((cs ++ [b]).map litComma).flatten := by
        simp [List.append_assoc]
      rw [hgrp, hfl, pngLineChars,
        show ['\t', '\t'] ++ (joinSep [',', ' '] ((cs ++ [b]).map hexLitChars) ++ [',', ' '])
            = (['\t', '\t'] ++ joinSep [',', ' '] ((cs ++ [b]).map hexLitChars)) ++ [',', ' ']
          from by simp [List.append_assoc],
        rstripWS_append_comma_space]
    rw [hline]

/-- Running the loop from a chunk boundary with a blank line produces exactly
the per-chunk lines: comma-terminated for full chunks, stripped for a trailing
partial chunk. -/
theorem bytesLoop_chunks : ∀ data : List Nat, ∀ (k : Nat) (acc : List (List Char)),
    bytesLoop data (12 * k) ['\t', '\t'] acc = acc ++ (chunks12 data).map refLine := by
  intro data
  induction data using chunks12.induct with
  | case1 =>
      intro k acc
      simp [bytesLoop, stripWS_blank, chunks12]
  | case2 b1 b2 b3 b4 b5 b6 b7 b8 b9 b10 b11 b12 rest ih =>
      intro k acc
      have hfull := bytesLoop_chunk_full [b1, b2, b3, b4, b5, b6, b7, b8, b9, b10, b11, b12]
        rest k acc (by simp)
      rw [show ([b1, b2, b3, b4, b5, b6, b7, b8, b9, b10, b11, b12] ++ rest)
            = b1 :: b2 :: b3 :: b4 :: b5 :: b6 :: b7 :: b8 :: b9 :: b10 :: b11 :: b12 :: rest
          from rfl] at hfull
      rw [hfull, ih (k + 1) _, chunks12]
      simp [refLine, List.append_assoc]
  | case3 l hnil hno =>
      intro k acc
      have hlen := length_le_of_no12 l hno
      have hpos : 0 < l.length := List.length_pos.mpr hnil
      obtain ⟨b, l', rfl⟩ : ∃ b l', l = b :: l' := by
        cases l with
        | nil => exact absurd rfl hnil
        | cons b l' => exact ⟨b, l', rfl⟩
      have hw : bytesLoop (b :: l') (12 * k) ['\t', '\t'] acc
          = bytesLoop [] (12 * k + (b :: l').length)
              (['\t', '\t'] ++ ((b :: l').map litComma).flatten) acc := by
        have := bytesLoop_within (b :: l') [] (12 * k) ['\t', '\t'] acc
          (by simp only [Nat.mul_mod_right]; omega)
        simpa using this
      rw [hw, bytesLoop]
      have hshape : ['\t', '\t'] ++ ((b :: l').map litComma).flatten
          = '\t' :: '\t' :: '0' :: ('x' :: hexDigitChar (b / 16) :: hexDigitChar (b % 16)
              :: ',' :: ' ' :: (l'.map litComma).flatten) := by
        simp [litComma, hexLitChars]
      rw [if_pos (by rw [hshape]; exact stripWS_tt_lit _)]
      have hrs : rstripCS (['\t', '\t'] ++ ((b :: l').map litComma).flatten)
          = plChars (b :: l') := by
        rw [show ['\t', '\t'] ++ ((b :: l').map litComma).flatten
              = (['\t', '\t'] ++ joinSep [',', ' '] ((b :: l').map hexLitChars)) ++ [',', ' ']
            from by rw [flat_litComma _ (by simp)]; simp [List.append_assoc]]
        obtain ⟨xs, v, hxs⟩ := joined_ends_in_digit (b :: l') (by simp)
        rw [hxs, rstripCS_append xs (hexDigitChar v) (hexDigitChar_not_comma_space v), ← hxs]
        rfl
      rw [hrs, chunks12]
      · have hne : l'.length ≠ 11 := by
          simp only [List.length_cons] at hlen
          omega
        simp [refLine, hne]
      · exact hnil
      · exact hno

/-- The `lines` list of `bytes_to_go_array`: one line per 12-byte slice, the
trailing comma stripped exactly on a final partial slice. -/
theorem bytes_to_go_lines_eq (data : List Nat) :
    bytes_to_go_lines data = (chunks12 data).map refLine := by
  have h := bytesLoop_chunks data 0 []
  simpa [bytes_to_go_lines] using h

/-! ### Further small helpers for the exporter claims -/

/-- Parsing the line emitted for a chunk (full or partial) recovers the chunk. -/
theorem parseHex_refLine (c : List Nat) (h : ∀ b ∈ c, b < 256) (rest : List Char) :
    parseHex (refLine c ++ rest) = c ++ parseHex rest := by
  unfold refLine
  split
  · exact parseHex_pngLine c h rest
  · exact parseHex_plChars c h rest

/-- Bytes of a slice are bytes of the input. -/
theorem chunks12_mem_mem (data : List Nat) (h : ∀ b ∈ data, b < 256) :
    ∀ c ∈ chunks12 data, ∀ b ∈ c, b < 256 := by
  intro c hc b hb
  exact h b (by rw [← chunks12_flatten data]; exact List.mem_flatten.mpr ⟨c, hc, hb⟩)

/-- `getLast?` commutes with `map`. -/
theorem getLast?_map_eq {α β : Type} (f : α → β) : ∀ l : List α,
    (l.map f).getLast? = l.getLast?.map f := by
  intro l
  induction l with
  | nil => rfl
  | cons a t ih =>
    cases t with
    | nil => rfl
    | cons b t2 => simpa [List.getLast?_cons_cons] using ih

/-- Formatted digits are not commas. -/
theorem hexDigitChar_ne_comma (v : Nat) : hexDigitChar v ≠ ',' := by
  intro hcontra
  have h := hexDigitChar_not_comma_space v
  rw [hcontra] at h
  simp [isCommaSpace] at h

/-- A stripped line ends in a hex digit, never in a comma. -/
theorem plChars_getLast (c : List Nat) (hc : c ≠ []) :
    (plChars c).getLast? ≠ some ',' := by
  obtain ⟨xs, v, hxs⟩ := joined_ends_in_digit c hc
  have hpl : plChars c = xs ++ [hexDigitChar v] := hxs
  rw [hpl, List.getLast?_concat]
  intro hcontra
  exact hexDigitChar_ne_comma v (by injection hcontra)

/-- Appending a suffix inside the last joined piece appends it to the join. -/
theorem joinSep_last_snoc (sep m t : List Char) : ∀ ms : List (List Char),
    joinSep sep (ms ++ [m ++ t]) = joinSep sep (ms ++ [m]) ++ t := by
  intro ms
  cases ms with
  | nil => simp [joinSep]
  | cons m0 ms0 =>
    rw [joinSep_append_last sep (m ++ t) (m0 :: ms0) (by simp),
      joinSep_append_last sep m (m0 :: ms0) (by simp)]
    simp [List.append_assoc]

/-- Character-level view of the emitted strings. -/
theorem png_to_go_bytes_toList (data : List Nat) :
    (png_to_go_bytes data).toList = joinSep ['\n'] (png_to_go_lines data) := rfl

/-- Character-level view of the emitted strings. -/
theorem bytes_to_go_array_toList (data : List Nat) :
    (bytes_to_go_array data).toList = joinSep ['\n'] (bytes_to_go_lines data) := rfl

/-! ## Claim theorems for the byte-array exporter -/

/-- **C1.** For every input byte sequence, the byte-array exporter round-trips:
parsing the hexadecimal byte literals out of the emitted text, in order, and
concatenating them reconstructs the original byte sequence exactly — for both
`png_to_go_bytes` and `bytes_to_go_array`. -/
theorem C1_exporter_roundtrip (data : List Nat) (h : ∀ b ∈ data, b < 256) :
    parseHex (png_to_go_bytes data).toList = data
      ∧ parseHex (bytes_to_go_array data).toList = data := by
  have hmem := chunks12_mem_mem data h
  constructor
  · rw [png_to_go_bytes_toList, png_to_go_lines,
      parseHex_joinLines pngLineChars (chunks12 data)
        (fun c hc rest => parseHex_pngLine c (hmem c hc) rest),
      chunks12_flatten]
  · rw [bytes_to_go_array_toList, bytes_to_go_lines_eq,
      parseHex_joinLines refLine (chunks12 data)
        (fun c hc rest => parseHex_refLine c (hmem c hc) rest),
      chunks12_flatten]

/-- Witness for C1 at the boundary length 25. -/
theorem C1_exporter_roundtrip_witness :
    (∀ b ∈ List.range 25, b < 256)
      ∧ parseHex (png_to_go_bytes (List.range 25)).toList = List.range 25
      ∧ parseHex (bytes_to_go_array (List.range 25)).toList = List.range 25 :=
  ⟨by decide, (C1_exporter_roundtrip (List.range 25) (by decide)).1,
    (C1_exporter_roundtrip (List.range 25) (by decide)).2⟩

/-- **C2, counterexample.** The claim asserts that for inputs whose length is
not a multiple of 12 the trailing partial line carries no trailing comma for
*both* exporters; but `png_to_go_bytes` terminates every line, the trailing
partial one included, with a comma: on input `[0]` its single (partial) line is
`"\t\t0x00,"`, ending in `','`. -/
theorem C2_counterexample :
    ([0] : List Nat).length % 12 ≠ 0
      ∧ png_to_go_bytes [0] = "\t\t0x00,"
      ∧ (png_to_go_bytes [0]).toList.getLast? = some ',' := by
  refine ⟨by decide, by decide, by decide⟩

/-- **C2, amended.** For every input whose length is not a multiple of 12,
both exporters still emit the trailing partial line (one more line than the
full chunks); `bytes_to_go_array`'s final line does not end with a dangling
comma, while every `png_to_go_bytes` line — the trailing partial one
included — ends with a comma. -/
theorem C2_trailing_partial_line (data : List Nat) (h : data.length % 12 ≠ 0) :
    (bytes_to_go_lines data).length = data.length / 12 + 1
      ∧ (∀ l, (bytes_to_go_lines data).getLast? = some l → l.getLast? ≠ some ',')
      ∧ (png_to_go_lines data).length = data.length / 12 + 1
      ∧ (∀ l ∈ png_to_go_lines data, l.getLast? = some ',') := by
  refine ⟨?_, ?_, ?_, ?_⟩
  · rw [bytes_to_go_lines_eq, List.length_map, chunks12_length]
    omega
  · intro l hl
    rw [bytes_to_go_lines_eq, getLast?_map_eq] at hl
    cases hc : (chunks12 data).getLast? with
    | none => rw [hc] at hl; simp at hl
    | some c =>
        rw [hc] at hl
        have hlc : l = refLine c := by simpa using hl.symm
        have hclen := chunks12_getLast_mod data h c hc
        have hcne : c ≠ [] := by
          intro hcontra
          rw [hcontra] at hclen
          simp at hclen
          omega
        have hc12 : c.length ≠ 12 := by omega
        rw [hlc, refLine, if_neg hc12]
        exact plChars_getLast c hcne
  · rw [png_to_go_lines, List.length_map, chunks12_length]
    omega
  · intro l hl
    rw [png_to_go_lines] at hl
    obtain ⟨c, _, rfl⟩ := List.mem_map.mp hl
    rw [pngLineChars_eq, List.getLast?_concat]

/-- Witness for C2's amended theorem at input `[0]`. -/
theorem C2_trailing_partial_line_witness :
    ([0] : List Nat).length % 12 ≠ 0
      ∧ (bytes_to_go_lines [0]).length = 1
      ∧ (∀ l ∈ png_to_go_lines [0], l.getLast? = some ',') :=
  ⟨by decide, (C2_trailing_partial_line [0] (by decide)).1,
    (C2_trailing_partial_line [0] (by decide)).2.2.2⟩

/-- **C3.** For input length `n` both exporters emit `⌈n/12⌉` lines; the hex
values carried by the lines are exactly the 12-byte slices of the input, so
every line except possibly the last carries exactly 12 values (witnessed at
the 14-byte input `[0x00..0x0D]`: 2 lines, carrying 12 and 2 values). -/
theorem C3_line_structure (data : List Nat) (h : ∀ b ∈ data, b < 256) :
    (png_to_go_lines data).length = (data.length + 11) / 12
      ∧ (bytes_to_go_lines data).length = (data.length + 11) / 12
      ∧ (png_to_go_lines data).map parseHex = chunks12 data
      ∧ (bytes_to_go_lines data).map parseHex = chunks12 data
      ∧ (∀ c ∈ (chunks12 data).dropLast, c.length = 12)
      ∧ (∀ c ∈ chunks12 data, c ≠ [] ∧ c.length ≤ 12) := by
  have hmem := chunks12_mem_mem data h
  have hpng : ∀ c ∈ chunks12 data, parseHex (pngLineChars c) = c := by
    intro c hc
    have hp := parseHex_pngLine c (hmem c hc) []
    simpa [parseHex] using hp
  have hbytes : ∀ c ∈ chunks12 data, parseHex (refLine c) = c := by
    intro c hc
    have hp := parseHex_refLine c (hmem c hc) []
    simpa [parseHex] using hp
  refine ⟨?_, ?_, ?_, ?_, chunks12_dropLast_full data, chunks12_mem_le data⟩
  · rw [png_to_go_lines, List.length_map, chunks12_length]
  · rw [bytes_to_go_lines_eq, List.length_map, chunks12_length]
  · rw [png_to_go_lines, List.map_map]
    have hcongr : (chunks12 data).map (parseHex ∘ pngLineChars) = (chunks12 data).map id :=
      List.map_congr_left (fun c hc => hpng c hc)
    rw [hcongr, List.map_id]
  · rw [bytes_to_go_lines_eq, List.map_map]
    have hcongr : (chunks12 data).map (parseHex ∘ refLine) = (chunks12 data).map id :=
      List.map_congr_left (fun c hc => hbytes c hc)
    rw [hcongr, List.map_id]

/-- Witness for C3 at the 14-byte input `[0x00..0x0D]`: 2 lines, the first
carrying 12 hex values and the second 2. -/
theorem C3_line_structure_witness :
    (∀ b ∈ List.range 14, b < 256)
      ∧ (png_to_go_lines (List.range 14)).length = (14 + 11) / 12
      ∧ (png_to_go_lines (List.range 14)).map parseHex = chunks12 (List.range 14)
      ∧ chunks12 (List.range 14) = [[0, 1, 2, 3, 4, 5, 6, 7, 8, 9, 10, 11], [12, 13]] :=
  ⟨by decide, (C3_line_structure (List.range 14) (by decide)).1,
    (C3_line_structure (List.range 14) (by decide)).2.2.1, by decide⟩

/-- **C10.** The two exporters produce character-identical output exactly when
the input length is a multiple of 12 (both give `""` on empty input); otherwise
the outputs differ, and only in the trailing comma `png_to_go_bytes` puts on
the final (partial) line. -/
theorem C10_exporters_agree_iff (data : List Nat) :
    (data.length % 12 = 0 → png_to_go_bytes data = bytes_to_go_array data)
      ∧ (data.length % 12 ≠ 0 →
          png_to_go_bytes data = bytes_to_go_array data ++ ","
            ∧ png_to_go_bytes data ≠ bytes_to_go_array data) := by
  constructor
  · intro hmod
    have hlines : (chunks12 data).map refLine = (chunks12 data).map pngLineChars := by
      refine List.map_congr_left (fun c hc => ?_)
      rw [refLine, if_pos (chunks12_full_of_mod data hmod c hc)]
    rw [png_to_go_bytes, bytes_to_go_array, bytes_to_go_lines_eq, hlines, png_to_go_lines]
  · intro hmod
    have hdne : data ≠ [] := by
      intro hcontra
      rw [hcontra] at hmod
      simp at hmod
    have hcne : chunks12 data ≠ [] := chunks12_ne_nil data hdne
    have hdecomp := List.dropLast_append_getLast hcne
    set c := (chunks12 data).getLast hcne with hcdef
    have hclast : (chunks12 data).getLast? = some c :=
      List.getLast?_eq_getLast _ hcne
    have hclen := chunks12_getLast_mod data hmod c hclast
    have hc12 : c.length ≠ 12 := by omega
    have hinit : ((chunks12 data).dropLast).map refLine
        = ((chunks12 data).dropLast).map pngLineChars := by
      refine List.map_congr_left (fun x hx => ?_)
      rw [refLine, if_pos (chunks12_dropLast_full data x hx)]
    have hpngL : png_to_go_lines data
        = ((chunks12 data).dropLast).map pngLineChars ++ [plChars c ++ [',']] := by
      rw [png_to_go_lines, ← hdecomp, List.map_append]
      simp [pngLineChars_eq]
    have hbytesL : bytes_to_go_lines data
        = ((chunks12 data).dropLast).map pngLineChars ++ [plChars c] := by
      rw [bytes_to_go_lines_eq, ← hdecomp, List.map_append, hinit]
      simp [refLine, hc12]
    have hchars : joinSep ['\n'] (png_to_go_lines data)
        = joinSep ['\n'] (bytes_to_go_lines data) ++ [','] := by
      rw [hpngL, hbytesL, joinSep_last_snoc]
    have heq : png_to_go_bytes data = bytes_to_go_array data ++ "," := by
      rw [png_to_go_bytes, bytes_to_go_array]
      rw [hchars]
      rfl
    refine ⟨heq, ?_⟩
    intro hcontra
    have hsame : bytes_to_go_array data ++ "," = bytes_to_go_array data :=
      heq.symm.trans hcontra
    have hlist := congrArg String.toList hsame
    have hlen := congrArg List.length hlist
    simp [String.toList] at hlen

/-- Witness for C10 at input `[0]` (length 1, not a multiple of 12). -/
theorem C10_exporters_agree_iff_witness :
    ([0] : List Nat).length % 12 ≠ 0
      ∧ png_to_go_bytes [0] = bytes_to_go_array [0] ++ "," :=
  ⟨by decide, ((C10_exporters_agree_iff [0]).2 (by decide)).1⟩

/-- `runSaves` succeeds exactly on environments where every save succeeds,
and aborts with the first failing file otherwise. -/
theorem runSaves_spec (env : Env) : ∀ fs : List String,
    (fs.all env.saveOk = true → runSaves env fs = .ok fs)
      ∧ (fs.all env.saveOk = false → ∃ e, runSaves env fs = .error e) := by
  intro fs
  induction fs with
  | nil => simp [runSaves]
  | cons f fs0 ih =>
      constructor
      · intro hall
        simp only [List.all_cons, Bool.and_eq_true] at hall
        rw [runSaves, if_pos hall.1, ih.1 hall.2]
      · intro hall
        simp only [List.all_cons, Bool.and_eq_false_iff] at hall
        by_cases hf : env.saveOk f = true
        · have hfs : fs0.all env.saveOk = false := by
            rcases hall with h | h
            · rw [hf] at h; cases h
            · exact h
          obtain ⟨e, he⟩ := ih.2 hfs
          exact ⟨e, by rw [runSaves, if_pos hf, he]⟩
        · exact ⟨f, by rw [runSaves, if_neg hf]⟩

/-! ## Claim theorems for the rasterizers -/

/-- **C4.** Every produced image has canvas dimensions exactly the requested
size: `create_circle_icon` at any size (so 22 gives 22×22), `create_app_icon`
at any size (so 512 gives 512×512), and each `generate_iconset` entry at its
nominal size with the `@2x` variant at twice it (so `icon_512x512@2x.png` is
1024×1024). -/
theorem C4_canvas_dimensions :
    (∀ (color : Nat × Nat × Nat) (size : Nat),
      (create_circle_icon color size).width = size
        ∧ (create_circle_icon color size).height = size)
      ∧ (∀ size : Nat,
          (create_app_icon size).width = size ∧ (create_app_icon size).height = size)
      ∧ generate_iconset.map (fun e => (e.1, e.2.width, e.2.height))
          = [("icon_16x16.png", 16, 16), ("icon_16x16@2x.png", 32, 32),
             ("icon_32x32.png", 32, 32), ("icon_32x32@2x.png", 64, 64),
             ("icon_64x64.png", 64, 64), ("icon_64x64@2x.png", 128, 128),
             ("icon_128x128.png", 128, 128), ("icon_128x128@2x.png", 256, 256),
             ("icon_256x256.png", 256, 256), ("icon_256x256@2x.png", 512, 512),
             ("icon_512x512.png", 512, 512), ("icon_512x512@2x.png", 1024, 1024),
             ("icon_1024x1024.png", 1024, 1024)] :=
  ⟨fun _ _ => ⟨rfl, rfl⟩, fun _ => ⟨rfl, rfl⟩, rfl⟩

/-- **C5.** `create_circle_icon` with RGB `(52, 199, 89)` at size 22 paints
the canvas-center pixel `(11, 11)` fully opaque in the requested color, and
leaves the corner pixel `(0, 0)` fully transparent. -/
theorem C5_circle_pixels :
    render (create_circle_icon (52, 199, 89) 22) 11 11 = (52, 199, 89, 255)
      ∧ render (create_circle_icon (52, 199, 89) 22) 0 0 = (0, 0, 0, 0) := by
  constructor <;>
  · simp only [render, create_circle_icon, imageNew, drawOp, paintOp, List.foldl,
      List.nil_append]
    norm_num [inEllipse, sq]

/-- **C6.** The rasterizers draw a fixed layout with no conditional branching
on content: `create_icon` draws the same six shapes for every status color,
and `create_app_icon` draws the same nine shapes (shadow, tablet, screen,
three handwriting strokes, pen, tip, indicator) at every positive size — in
particular any two sizes produce the identical sequence of shape kinds. -/
theorem C6_fixed_layout :
    (∀ c : RGBA, (create_icon_img c).ops.map opKind
        = [.roundedRectangle, .line, .ellipse, .ellipse, .ellipse, .ellipse])
      ∧ (∀ size : Nat, 1 ≤ size → (create_app_icon size).ops.map opKind
          = [.roundedRectangle, .roundedRectangle, .roundedRectangle,
             .line, .line, .line, .line, .ellipse, .ellipse]) := by
  constructor
  · intro c
    rfl
  · intro size hs
    have hcond : ∀ i, i < 3 → app_y_start size + i * intScale 50 size + intScale 20 size
        < app_screen_hi size := by
      intro i hi
      unfold app_y_start app_screen_hi app_screen_lo app_screen_padding app_tablet_lo
        app_tablet_hi app_padding intScale
      interval_cases i <;> omega
    have h0 := hcond 0 (by omega)
    have h1 := hcond 1 (by omega)
    have h2 := hcond 2 (by omega)
    have hstrokes : (app_strokes size).map opKind = [.line, .line, .line] := by
      simp only [app_strokes, show List.range 3 = [0, 1, 2] from rfl, List.filterMap_cons,
        List.filterMap_nil, h0, h1, h2, if_true, List.map_cons, List.map_nil, opKind]
    simp only [create_app_icon, imageNew, drawOp, List.map_append, hstrokes, opKind,
      List.nil_append, List.map_cons, List.map_nil]
    rfl

/-- Witness for C6 at size 512 (and, through the theorem, any positive
size). -/
theorem C6_fixed_layout_witness :
    1 ≤ 512 ∧ (create_app_icon 512).ops.map opKind
        = [OpKind.roundedRectangle, .roundedRectangle, .roundedRectangle,
           .line, .line, .line, .line, .ellipse, .ellipse] :=
  ⟨by decide, C6_fixed_layout.2 512 (by decide)⟩

/-- **C7, counterexample.** The claim says each script exits non-zero *only*
when PIL is unavailable, exiting zero even when per-item file operations
fail.  But `generate_icons.py` catches only `ImportError`: a failed
`img.save` propagates out of `main()` and the process exits non-zero although
PIL is available. -/
theorem C7_counterexample :
    envSaveFails.pilAvailable = true ∧ generate_icons_exit envSaveFails = 1 :=
  ⟨rfl, rfl⟩

/-- **C7, amended.** A script exits 1 when PIL is unavailable at startup;
with PIL available, `generate_icons.py` exits 0 exactly when every per-item
save succeeds (an unhandled save failure is fatal, not logged-and-skipped);
only the byte-array driver `png_to_go.py` treats its per-item failure — a
missing input file — as non-fatal, always exiting 0. -/
theorem C7_exit_behavior (env : Env) :
    (env.pilAvailable = false → generate_icons_exit env = 1)
      ∧ (generate_icons_exit env = 0
          ↔ env.pilAvailable = true ∧ generate_icons_files.all env.saveOk = true)
      ∧ png_to_go_exit env = 0 := by
  refine ⟨?_, ?_, rfl⟩
  · intro hp
    rw [generate_icons_exit, hp]
    rfl
  · by_cases hp : env.pilAvailable = true
    · rw [generate_icons_exit, if_pos hp]
      cases hall : generate_icons_files.all env.saveOk with
      | true =>
          rw [(runSaves_spec env generate_icons_files).1 hall]
          simp [hp]
      | false =>
          obtain ⟨e, he⟩ := (runSaves_spec env generate_icons_files).2 hall
          rw [he]
          simp
    · rw [generate_icons_exit, if_neg hp]
      simp [hp]

/-- Witness for C7's amended theorem: with PIL unavailable the process exits
1. -/
theorem C7_exit_behavior_witness :
    envNoPil.pilAvailable = false ∧ generate_icons_exit envNoPil = 1 :=
  ⟨rfl, (C7_exit_behavior envNoPil).1 rfl⟩

/-- **C8.** The byte-array batch driver reports each missing input file to
the error stream and proceeds: its stdout is the header plus the blocks of
exactly the existing inputs, in order, and its stderr one `not found` line per
missing input — a per-item failure never aborts the batch. -/
theorem C8_batch_continues (env : Env) :
    png_to_go_main env
      = (png_to_go_header
          ++ (png_icons.filter (fun it => env.pathExists it.2)).flatMap
              (fun it => iconBlock it.1 (env.fileBytes it.2)),
         (png_icons.filter (fun it => !env.pathExists it.2)).map
              (fun it => "Error: " ++ it.2 ++ " not found")) := by
  cases h1 : env.pathExists "icon-green-22.png" <;>
    cases h2 : env.pathExists "icon-yellow-22.png" <;>
      cases h3 : env.pathExists "icon-red-22.png" <;>
        simp [png_to_go_main, png_icons, h1, h2, h3, List.filter]

/-- **C9.** Determinism: the rasterizers are pure functions of their
arguments — the Python functions read no other state, and PIL's encoder is
modelled by the deterministic `pngEncode` — so two invocations with identical
inputs yield byte-identical PNG output and identical pixel data. -/
theorem C9_determinism :
    (∀ c : RGBA, create_icon c = create_icon c)
      ∧ (∀ size : Nat,
          pngEncode (create_app_icon size) = pngEncode (create_app_icon size)
            ∧ ∀ x y : Nat, render (create_app_icon size) x y = render (create_app_icon size) x y) :=
  ⟨fun _ => rfl, fun _ => ⟨rfl, fun _ _ => rfl⟩⟩

end Legible
